import Mathlib

/-!
Verification of the smart-canvas agent service and skills service.

The Python sources are shallowly embedded: Python floats are modelled as
rationals (for scores, where the code only adds, multiplies and compares
fixed decimal constants) or reals (for embedding similarities, which take
square roots), JSON values as an inductive type with ordered association
lists for objects (Python dicts preserve insertion order), and the results
of awaited effects (database rows, LLM calls, embeddings) as explicit
arguments of the pure decision functions distilled from the handlers.
-/

namespace SpecProof

/-- JSON-like values exchanged by the services. -/
inductive Json where
  | null
  | bool (b : Bool)
  | num (q : ℚ)
  | str (s : String)
  | arr (items : List Json)
  | obj (fields : List (String × Json))

/-- Python dict lookup, dict.get: the value stored at a key. -/
def jsonGet : List (String × Json) → String → Option Json
  | [], _ => none
  | (k, v) :: rest, key => if k = key then some v else jsonGet rest key

/-- Python dict assignment: replace the value at a key in place, else append. -/
def jsonSet : List (String × Json) → String → Json → List (String × Json)
  | [], key, value => [(key, value)]
  | (k, v) :: rest, key, value =>
    if k = key then (k, value) :: rest else (k, v) :: jsonSet rest key value

/-! Tool-schema normalisation, from agent-service _normalize_tool_schema. -/

/-- Keys probed by the normaliser: any(k in prop for k in (type, anyOf, oneOf, allOf)). -/
def hasTypeCarryingKey (fields : List (String × Json)) : Bool :=
  (jsonGet fields "type").isSome || (jsonGet fields "anyOf").isSome ||
    (jsonGet fields "oneOf").isSome || (jsonGet fields "allOf").isSome

/-- Test for prop.get(type) == "object". -/
def typeIsObject (fields : List (String × Json)) : Bool :=
  match jsonGet fields "type" with
  | some (Json.str t) => t = "object"
  | _ => false

/-- Ensure the properties entry holds a mapping, as in the source lines that
coerce a non-dict properties value to an empty dict. -/
def ensurePropsDict (fields : List (String × Json)) : List (String × Json) :=
  match jsonGet fields "properties" with
  | some (Json.obj _) => fields
  | _ => jsonSet fields "properties" (Json.obj [])

/-- Per-property body of the loop in _normalize_tool_schema: a non-dict
property becomes a string-typed one; a dict property without a
type-carrying key gets type object; object-typed properties get a
properties mapping and additionalProperties set to false. -/
def normalizeProp (p : Json) : Json :=
  match p with
  | Json.obj fields =>
    let fields1 := if hasTypeCarryingKey fields then fields
                   else jsonSet fields "type" (Json.str "object")
    if typeIsObject fields1 then
      Json.obj (jsonSet (ensurePropsDict fields1) "additionalProperties" (Json.bool false))
    else Json.obj fields1
  | _ => Json.obj [("type", Json.str "string")]

/-- Embedding of agent-service _normalize_tool_schema. A non-dict schema is
replaced by an empty dict; a missing or null type defaults to object; the
properties mapping is ensured and each property normalised; finally
additionalProperties is forced to false. -/
def normalize_tool_schema (schema : Json) : Json :=
  let fields0 := match schema with | Json.obj f => f | _ => []
  let fields1 := match jsonGet fields0 "type" with
    | none => jsonSet fields0 "type" (Json.str "object")
    | some Json.null => jsonSet fields0 "type" (Json.str "object")
    | some _ => fields0
  let fields2 := ensurePropsDict fields1
  let props := match jsonGet fields2 "properties" with
    | some (Json.obj ps) => ps
    | _ => []
  let fields3 := jsonSet fields2 "properties"
    (Json.obj (props.map (fun kv => (kv.1, normalizeProp kv.2))))
  Json.obj (jsonSet fields3 "additionalProperties" (Json.bool false))

/-- Test that the properties entry holds a mapping. -/
def propsIsDict (fields : List (String × Json)) : Bool :=
  match jsonGet fields "properties" with
  | some (Json.obj _) => true
  | _ => false

/-- Test that additionalProperties is stored as false. -/
def apIsFalse (fields : List (String × Json)) : Bool :=
  match jsonGet fields "additionalProperties" with
  | some (Json.bool false) => true
  | _ => false

/-- Shape demanded of one normalised property: a dict carrying a
type-carrying key, closed when it is object-typed. -/
def propClosed (p : Json) : Bool :=
  match p with
  | Json.obj pf =>
    hasTypeCarryingKey pf && (if typeIsObject pf then propsIsDict pf && apIsFalse pf else true)
  | _ => false

/-- Checker for the output shape demanded of normalised schemas: the
top-level additionalProperties is false, properties is a mapping, and
every property satisfies propClosed. -/
def schemaClosed (j : Json) : Bool :=
  match j with
  | Json.obj fields =>
    apIsFalse fields &&
      (match jsonGet fields "properties" with
       | some (Json.obj ps) => ps.all (fun kv => propClosed kv.2)
       | _ => false)
  | _ => false

/-- Top-level type entry of a schema. -/
def schemaType (j : Json) : Option Json :=
  match j with
  | Json.obj fields => jsonGet fields "type"
  | _ => none

/-! Tool-call argument parsing and prioritisation, from the agent service. -/

/-- Raw content of the arguments slot of a function call, before parsing. -/
inductive ArgsRaw where
  | missing
  | text (s : String)
  | dict (fields : List (String × Json))
  | other (truthy : Bool)

/-- Python truthiness of the raw arguments value. -/
def argsTruthy : ArgsRaw → Bool
  | ArgsRaw.missing => false
  | ArgsRaw.text s => !(s == "")
  | ArgsRaw.dict fields => !fields.isEmpty
  | ArgsRaw.other t => t

/-- Embedding of agent-service _parse_tool_args. The json.loads library
call is abstracted as the loads argument, with none standing for a raised
JSONDecodeError. -/
def parse_tool_args (loads : String → Option Json) (raw : ArgsRaw) : Json :=
  if !argsTruthy raw then Json.obj []
  else
    match raw with
    | ArgsRaw.dict fields => Json.obj fields
    | ArgsRaw.text s =>
      match loads s with
      | some j => j
      | none => Json.obj []
    | _ => Json.obj []

/-- One function call extracted from the model response output. -/
structure ToolCall where
  call_id : Option String
  name : Option String
  arguments : ArgsRaw

/-- Embedding of agent-service _tool_call_priority. -/
def tool_call_priority (loads : String → Option Json) (call : ToolCall) : ℕ :=
  let args := parse_tool_args loads call.arguments
  let actionIsCreate :=
    match args with
    | Json.obj fields =>
      match jsonGet fields "action" with
      | some (Json.str a) => a = "create"
      | _ => false
    | _ => false
  if call.name == some "edge" && actionIsCreate then 10 else 0

/-- Comparison used to sort the enumerated calls: the Python tuple order on
(priority, original index). -/
def priorityLe (loads : String → Option Json) (a b : ℕ × ToolCall) : Prop :=
  tool_call_priority loads a.2 < tool_call_priority loads b.2 ∨
    (tool_call_priority loads a.2 = tool_call_priority loads b.2 ∧ a.1 ≤ b.1)

instance (loads : String → Option Json) : DecidableRel (priorityLe loads) := fun a b => by
  unfold priorityLe
  infer_instance

instance (loads : String → Option Json) : IsTotal (ℕ × ToolCall) (priorityLe loads) := by
  constructor
  intro a b
  unfold priorityLe
  omega

instance (loads : String → Option Json) : IsTrans (ℕ × ToolCall) (priorityLe loads) := by
  constructor
  intro a b c hab hbc
  unfold priorityLe at *
  omega

/-- Embedding of agent-service _prioritize_tool_calls: sort the enumerated
calls by (priority, index) and drop the indices. Python sort on keys that
are pairwise distinct (the index breaks all ties) yields the unique
ordering that is ascending in the key, which any correct sort produces. -/
def prioritize_tool_calls (loads : String → Option Json) (calls : List ToolCall) : List ToolCall :=
  (List.insertionSort (priorityLe loads) calls.enum).map Prod.snd

/-- Invocation list of one round of the tool-resolution loop in run_agent:
the prioritised calls that carry both a call id and a name, each paired
with its parsed arguments as handed to call_tool. -/
def round_tool_invocations (loads : String → Option Json) (calls : List ToolCall) :
    List (String × Json) :=
  (prioritize_tool_calls loads calls).filterMap (fun call =>
    match call.call_id, call.name with
    | some cid, some n =>
      if cid = "" || n = "" then none
      else some (n, parse_tool_args loads call.arguments)
    | _, _ => none)

/-! Final-text extraction, from agent-service _extract_response_text and the
tail of run_agent. -/

/-- Value of response.output_parsed as the code discriminates it: a parsed
AssistantResponse, a dict whose message entry may or may not be a string,
or anything else (including absent). -/
inductive ParsedOutput where
  | absent
  | assistant (message : String)
  | dict (message : Option String)
  | otherValue

/-- One content part of an output item; ptext is some only when the text
attribute holds a string. -/
structure ContentPart where
  ptype : Option String
  ptext : Option String

/-- One item of response.output; content is some only when it is a list. -/
structure OutputItem where
  content : Option (List ContentPart)

/-- The slice of a Model Client response consumed by the extractor:
output_text is some only when the attribute exists and is a string, and
output is some only when the attribute is a list. -/
structure ModelResponse where
  output_parsed : ParsedOutput
  output_text : Option String
  output : Option (List OutputItem)

/-- Scan of one content list for the first output_text part with string text. -/
def findOutputTextPart : List ContentPart → Option String
  | [] => none
  | part :: rest =>
    if part.ptype == some "output_text" && part.ptext.isSome then part.ptext
    else findOutputTextPart rest

/-- Scan of the output items for the first output_text part, skipping items
whose content is not a list. -/
def firstOutputTextBlock : List OutputItem → String
  | [] => ""
  | item :: rest =>
    match item.content with
    | some parts =>
      match findOutputTextPart parts with
      | some t => t
      | none => firstOutputTextBlock rest
    | none => firstOutputTextBlock rest

/-- Embedding of agent-service _extract_response_text. -/
def extract_response_text (r : ModelResponse) : String :=
  match r.output_text with
  | some s => s
  | none =>
    match r.output with
    | some items => firstOutputTextBlock items
    | none => ""

/-- Python whitespace characters stripped by str.strip(). -/
def isPySpace (c : Char) : Bool :=
  c == ' ' || c == '\t' || c == '\n' || c == '\x0d' || c == '\x0b' || c == '\x0c'

/-- Characters of a string with surrounding whitespace removed, modelling
str.strip(). -/
def stripChars (l : List Char) : List Char :=
  ((l.dropWhile isPySpace).reverse.dropWhile isPySpace).reverse

/-- Python str.strip() on a string value. -/
def pyStrip (s : String) : String :=
  String.mk (stripChars s.data)

/-- Embedding of skills-service _clamp_text: strip, empty stays empty, then
cut to the first max_len characters. -/
def clamp_text (s : String) (maxLen : ℕ) : String :=
  let trimmed := stripChars s.data
  if trimmed.isEmpty then "" else String.mk (trimmed.take maxLen)

/-- Final-output selection at the tail of run_agent: the parsed message when
parsing produced one, else the extracted response text, stripped. -/
def run_agent_final_output (r : ModelResponse) : String :=
  let output :=
    match r.output_parsed with
    | ParsedOutput.assistant m => m
    | ParsedOutput.dict (some m) => m
    | _ => ""
  let output := if output = "" then extract_response_text r else output
  pyStrip output

/-- Extraction as the specification words it: the first present of the
parsed message, the output_text attribute and the first output_text
content block, trimmed of surrounding whitespace. Stated from the spec for
comparison with the code. -/
def claimed_final_output_spec (r : ModelResponse) : String :=
  match r.output_parsed with
  | ParsedOutput.assistant m => pyStrip m
  | _ =>
    match r.output_text with
    | some s => pyStrip s
    | none =>
      match r.output with
      | some items => pyStrip (firstOutputTextBlock items)
      | none => ""

/-- Amended extraction: as claimed, but a dict-shaped parsed payload with a
string message also counts as the parsed message, and an empty parsed
message counts as absent and falls through to output_text. -/
def amended_final_output (r : ModelResponse) : String :=
  let parsedMessage :=
    match r.output_parsed with
    | ParsedOutput.assistant m => some m
    | ParsedOutput.dict (some m) => some m
    | _ => none
  match parsedMessage with
  | some m =>
    if m = "" then
      match r.output_text with
      | some s => pyStrip s
      | none =>
        match r.output with
        | some items => pyStrip (firstOutputTextBlock items)
        | none => ""
    else pyStrip m
  | none =>
    match r.output_text with
    | some s => pyStrip s
    | none =>
      match r.output with
      | some items => pyStrip (firstOutputTextBlock items)
      | none => ""

/-! Placeholder counting and score estimation, from skills-service
_count_placeholders and _estimate_generalization_score. -/

/-- Character class of the regex actually compiled by the source, whose
raw string doubles every backslash: letters, digits, underscore, a literal
backslash and the hyphen. -/
def isCodeClassChar (c : Char) : Bool :=
  (('a' ≤ c) && (c ≤ 'z')) || (('A' ≤ c) && (c ≤ 'Z')) ||
    (('0' ≤ c) && (c ≤ '9')) || c == '_' || c == '\\' || c == '-'

/-- Test that the two characters at offset k are a backslash and a closing
brace, the end marker of the compiled pattern. -/
def codeEndMarkerAt (body : List Char) (k : ℕ) : Bool :=
  match body.drop k with
  | '\\' :: '\x7d' :: _ => true
  | _ => false

/-- Greedy backtracking of the regex body: the longest body length of at
least one class character followed by the end marker. -/
def greedyBodyLen (body : List Char) : ℕ → Option ℕ
  | 0 => none
  | k + 1 => if codeEndMarkerAt body (k + 1) then some (k + 1) else greedyBodyLen body k

/-- Attempt to match the compiled pattern at the head of the character
list, returning the remainder after the match. -/
def codePlaceholderMatch (l : List Char) : Option (List Char) :=
  match l with
  | '\\' :: '\x7b' :: body =>
    match greedyBodyLen body (body.takeWhile isCodeClassChar).length with
    | some k => some (body.drop (k + 2))
    | none => none
  | _ => none

/-- Left-to-right non-overlapping scan of re.findall, advancing one
character on failure; the fuel equals the list length and never runs out. -/
def codeCountAux : ℕ → List Char → ℕ
  | 0, _ => 0
  | _ + 1, [] => 0
  | fuel + 1, c :: rest =>
    match codePlaceholderMatch (c :: rest) with
    | some rem => 1 + codeCountAux fuel rem
    | none => codeCountAux fuel rest

/-- Embedding of skills-service _count_placeholders with the pattern the
interpreter actually compiles from the doubled backslashes. -/
def count_placeholders (s : String) : ℕ :=
  codeCountAux s.data.length s.data

/-- Identifier characters of the placeholder pattern as the specification
words it: letters, digits, underscore, hyphen. -/
def isSpecIdentChar (c : Char) : Bool :=
  (('a' ≤ c) && (c ≤ 'z')) || (('A' ≤ c) && (c ≤ 'Z')) ||
    (('0' ≤ c) && (c ≤ '9')) || c == '_' || c == '-'

/-- Match of a brace-delimited identifier at the head of the list, as the
specification describes placeholders. Stated from the spec for comparison
with the code. -/
def specPlaceholderMatch (l : List Char) : Option (List Char) :=
  match l with
  | '\x7b' :: body =>
    let run := (body.takeWhile isSpecIdentChar).length
    if run = 0 then none
    else
      match body.drop run with
      | '\x7d' :: rest2 => some rest2
      | _ => none
  | _ => none

/-- Scan counting spec-worded placeholders, mirror of the code-side scan. -/
def specCountAux : ℕ → List Char → ℕ
  | 0, _ => 0
  | _ + 1, [] => 0
  | fuel + 1, c :: rest =>
    match specPlaceholderMatch (c :: rest) with
    | some rem => 1 + specCountAux fuel rem
    | none => specCountAux fuel rest

/-- Placeholder count as the specification words it. -/
def spec_count_placeholders (s : String) : ℕ :=
  specCountAux s.data.length s.data

/-- One skill step as modelled by the service. -/
structure SkillStep where
  title : String
  instructions : String
  notes : Option String

/-- A skill definition as modelled by the service. -/
structure SkillDefinition where
  name : String
  description : String
  entrypoint : String
  steps : List SkillStep

/-- Embedding of skills-service _estimate_generalization_score. -/
def estimate_generalization_score (defn : SkillDefinition) (parameters : List Json) : ℚ :=
  let placeholders := count_placeholders defn.entrypoint +
    (defn.steps.map (fun step => count_placeholders step.instructions)).sum
  let score : ℚ := 0.35 + ((min placeholders 8 : ℕ) : ℚ) * 0.05 +
    ((min parameters.length 8 : ℕ) : ℚ) * 0.04
  max 0 (min 1 score)

/-- Score formula with the placeholder count as the specification words
it. Stated from the spec for comparison with the code. -/
def spec_generalization_score (defn : SkillDefinition) (parameters : List Json) : ℚ :=
  let placeholders := spec_count_placeholders defn.entrypoint +
    (defn.steps.map (fun step => spec_count_placeholders step.instructions)).sum
  let score : ℚ := 0.35 + ((min placeholders 8 : ℕ) : ℚ) * 0.05 +
    ((min parameters.length 8 : ℕ) : ℚ) * 0.04
  max 0 (min 1 score)

/-! Retrieval similarity and the hit-or-miss decision of the /run endpoint,
from skills-service _cosine_similarity and run_skill. -/

/-- Embedding of skills-service _cosine_similarity. The accumulators only
range over zipped pairs, exactly as the source loop does. -/
noncomputable def cosine_similarity (vecA vecB : List ℝ) : ℝ :=
  if vecA.isEmpty || vecB.isEmpty then 0
  else
    let pairs := vecA.zip vecB
    let dot := (pairs.map (fun p => p.1 * p.2)).sum
    let normA := (pairs.map (fun p => p.1 * p.1)).sum
    let normB := (pairs.map (fun p => p.2 * p.2)).sum
    if normA ≤ 0 ∨ normB ≤ 0 then 0
    else dot / (Real.sqrt normA * Real.sqrt normB)

/-- Default of SKILLS_MATCH_SIMILARITY_THRESHOLD. -/
noncomputable def MATCH_SIMILARITY_THRESHOLD : ℝ := 0.75

/-- Default of SKILLS_MATCH_THRESHOLD, the distance fallback. -/
noncomputable def MATCH_THRESHOLD : ℝ := 0.25

/-- Clamp to the unit interval, as max(0.0, min(1.0, x)). -/
noncomputable def clamp01 (x : ℝ) : ℝ := max 0 (min 1 x)

/-- Similarity of the matched skill as run_skill computes it: cosine of the
retained stored embedding against the query embedding when both are
non-empty, else derived from the returned distance, else not computable. -/
noncomputable def match_similarity (stored query : List ℝ) (distance : Option ℝ) : Option ℝ :=
  if !stored.isEmpty && !query.isEmpty then some (cosine_similarity stored query)
  else
    match distance with
    | some d => some (1 - d ^ 2 / 2)
    | none => none

/-- Outcome of the retrieval gate in run_skill. -/
inductive MatchDecision where
  | hit
  | miss
  deriving DecidableEq

/-- Embedding of the hit-or-miss branch of run_skill once a nearest skill
row came back: clamp the similarity and compare against the similarity
threshold; when no similarity is computable, fall back to the distance
threshold, with a missing distance meaning miss. -/
noncomputable def run_skill_match_decision (stored query : List ℝ) (distance : Option ℝ) :
    MatchDecision :=
  match match_similarity stored query distance with
  | some sim =>
    if clamp01 sim < MATCH_SIMILARITY_THRESHOLD then MatchDecision.miss else MatchDecision.hit
  | none =>
    match distance with
    | none => MatchDecision.miss
    | some d => if d > MATCH_THRESHOLD then MatchDecision.miss else MatchDecision.hit

/-! Merge helpers, from skills-service _merge_parameters, _merge_string_lists
and _merge_examples. All three share one loop shape: walk incoming then
existing, keep the first item per dedupe key, and break once the merged
list reaches the cap. The generic walker keeps each kept item paired with
its dedupe key. -/

/-- Default of SKILLS_MAX_PARAMETERS. -/
def SKILLS_MAX_PARAMETERS : ℕ := 12

/-- Default of SKILLS_MAX_PRECONDITIONS. -/
def SKILLS_MAX_PRECONDITIONS : ℕ := 8

/-- Default of SKILLS_MAX_SUCCESS_CRITERIA. -/
def SKILLS_MAX_SUCCESS_CRITERIA : ℕ := 8

/-- Default of SKILLS_MAX_EXAMPLES. -/
def SKILLS_MAX_EXAMPLES : ℕ := 6

/-- Shared loop of the three merge helpers: keyOf returns none for items
the loop skips, else the dedupe key and the value appended to the merged
list; the loop breaks right after the merged list reaches the cap. -/
def mergeByKeyAux (keyOf : Json → Option (String × Json)) (cap : ℕ) :
    List Json → List String → List (String × Json) → List (String × Json)
  | [], _, acc => acc
  | p :: rest, seen, acc =>
    match keyOf p with
    | none => mergeByKeyAux keyOf cap rest seen acc
    | some (k, v) =>
      if k ∈ seen then mergeByKeyAux keyOf cap rest seen acc
      else if acc.length + 1 ≥ cap then acc ++ [(k, v)]
      else mergeByKeyAux keyOf cap rest (k :: seen) (acc ++ [(k, v)])

/-- Keyed merge of a full item list. -/
def mergeByKey (keyOf : Json → Option (String × Json)) (cap : ℕ) (items : List Json) :
    List (String × Json) :=
  mergeByKeyAux keyOf cap items [] []

/-- Key and kept value of one parameter item: dicts with a string name are
kept unchanged and deduped by that name. -/
def paramKey (p : Json) : Option (String × Json) :=
  match p with
  | Json.obj fields =>
    match jsonGet fields "name" with
    | some (Json.str n) => some (n, Json.obj fields)
    | _ => none
  | _ => none

/-- ASCII lowering of one character, as str.lower() acts on the text the
services handle. -/
def asciiLower (c : Char) : Char :=
  if ('A' ≤ c) && (c ≤ 'Z') then Char.ofNat (c.toNat + 32) else c

/-- Python str.lower() on the embedded strings. -/
def lowerString (s : String) : String :=
  String.mk (s.data.map asciiLower)

/-- Key and kept value of one string-list item: strings are clamped, empty
results skipped, deduped case-insensitively, and the clamped text kept. -/
def stringKey (maxLen : ℕ) (item : Json) : Option (String × Json) :=
  match item with
  | Json.str s =>
    let trimmed := clamp_text s maxLen
    if trimmed = "" then none else some (lowerString trimmed, Json.str trimmed)
  | _ => none

/-- Key and kept value of one example item: dicts with a string userInput
are kept unchanged and deduped by that input. -/
def exampleKey (item : Json) : Option (String × Json) :=
  match item with
  | Json.obj fields =>
    match jsonGet fields "userInput" with
    | some (Json.str u) => some (u, Json.obj fields)
    | _ => none
  | _ => none

/-- Dedupe keys of the items a keyed merge would consider, in order. -/
def keysOf (keyOf : Json → Option (String × Json)) (l : List Json) : List String :=
  l.filterMap (fun p => (keyOf p).map Prod.fst)

/-- Embedding of skills-service _merge_parameters. -/
def merge_parameters (existing incoming : List Json) : List Json :=
  (mergeByKey paramKey SKILLS_MAX_PARAMETERS (incoming ++ existing)).map Prod.snd

/-- Embedding of skills-service _merge_string_lists. -/
def merge_string_lists (existing incoming : List Json) (maxItems maxLen : ℕ) : List Json :=
  (mergeByKey (stringKey maxLen) maxItems (incoming ++ existing)).map Prod.snd

/-- Embedding of skills-service _merge_examples. -/
def merge_examples (existing incoming : List Json) : List Json :=
  (mergeByKey exampleKey SKILLS_MAX_EXAMPLES (incoming ++ existing)).map Prod.snd

/-- Merged generalisation score written on the merge path of
_record_skill_background: the maximum of the existing and incoming scores
when an existing score is stored, else the incoming score. -/
def merged_generalization_score (existing : Option ℚ) (incoming : ℚ) : ℚ :=
  match existing with
  | some s => max s incoming
  | none => incoming

/-! Step-token similarity, from skills-service _tokenize_text and
_step_similarity. The token regex raw string also doubles its backslashes,
so the compiled class holds only a literal backslash and the letter w. -/

/-- Characters of the compiled token class. -/
def isTokenChar (c : Char) : Bool :=
  c == 'w' || c == '\\'

/-- Maximal runs of token-class characters of length at least two, the
matches of the compiled pattern in findall order. -/
def tokenRuns : List Char → List String
  | [] => []
  | c :: rest =>
    if isTokenChar c then
      let run := c :: rest.takeWhile isTokenChar
      let rest2 := rest.dropWhile isTokenChar
      if run.length ≥ 2 then String.mk run :: tokenRuns rest2 else tokenRuns rest2
    else tokenRuns rest
termination_by l => l.length
decreasing_by
all_goals simp only [List.length_cons]
all_goals first
  | exact Nat.lt_succ_of_le (List.dropWhile_sublist _).length_le
  | exact Nat.lt_succ_self _

/-- Deduplicating insert, modelling set membership. -/
def dedupInsert (s : List String) (x : String) : List String :=
  if x ∈ s then s else s ++ [x]

/-- Embedding of skills-service _tokenize_text: the set of pattern matches
over the lowered text, as a duplicate-free list. -/
def tokenize_text (s : String) : List String :=
  (tokenRuns (s.data.map asciiLower)).foldl dedupInsert []

/-- Size of the intersection of two token sets. -/
def tokenInter (a b : List String) : ℕ :=
  (a.filter (fun t => b.contains t)).length

/-- Size of the union of two token sets. -/
def tokenUnion (a b : List String) : ℕ :=
  a.length + (b.filter (fun t => !a.contains t)).length

/-- Title and instructions of one stored step dict joined by a space, the
text tokenised by _step_similarity. Step dicts are written from
SkillStep.model_dump(), so the fields are strings or null. -/
def stepText (step : Json) : Option String :=
  match step with
  | Json.obj fields =>
    some ((match jsonGet fields "title" with | some (Json.str s) => s | _ => "") ++ " " ++
      (match jsonGet fields "instructions" with | some (Json.str s) => s | _ => ""))
  | _ => none

/-- Token sets of the steps that tokenise to something, the right_tokens
list of _step_similarity. -/
def stepTokenSets (steps : List Json) : List (List String) :=
  steps.filterMap (fun step =>
    match stepText step with
    | some text =>
      let toks := tokenize_text text
      if toks.isEmpty then none else some toks
    | none => none)

/-- Best Jaccard score of one token set against the candidate token sets. -/
def bestJaccard (toks : List String) (rightTokens : List (List String)) : ℚ :=
  rightTokens.foldl (fun best cand =>
    let u := tokenUnion toks cand
    if u = 0 then best
    else
      let score := (tokenInter toks cand : ℚ) / (u : ℚ)
      if score > best then score else best) 0

/-- Embedding of skills-service _step_similarity. -/
def step_similarity (left right : List Json) : ℚ :=
  if left.isEmpty || right.isEmpty then 0
  else
    let rightTokens := stepTokenSets right
    if rightTokens.isEmpty then 0
    else
      let scored := left.filterMap (fun step =>
        match stepText step with
        | some text =>
          let toks := tokenize_text text
          if toks.isEmpty then none else some (bestJaccard toks rightTokens)
        | none => none)
      if scored.isEmpty then 0 else scored.sum / (scored.length : ℚ)

/-! The asynchronous learner, from skills-service _record_skill_background.
The awaited effects (the two LLM calls, the embedding call and the
candidate lookup) enter as arguments; the pure gating, scoring and
merge-or-insert decision is embedded as written. -/

/-- Default of SKILLS_GENERALIZATION_THRESHOLD. -/
def SKILLS_GENERALIZATION_THRESHOLD : ℚ := 0.75

/-- Default of SKILLS_MERGE_SIMILARITY_THRESHOLD. -/
noncomputable def SKILLS_MERGE_SIMILARITY_THRESHOLD : ℝ := 0.75

/-- Default of SKILLS_MERGE_SIMILARITY_EPS. -/
noncomputable def SKILLS_MERGE_SIMILARITY_EPS : ℝ := 0.05

/-- Normalised pieces the learner derives from the generalisation call,
lines 1309 to 1339 of the service: the normalised definition and the
normalised parameter, precondition, success-criterion and example lists,
plus the score the model may have supplied. -/
structure GeneralizedData where
  normalized : SkillDefinition
  parameters : List Json
  preconditions : List Json
  successCriteria : List Json
  examples : List Json
  generalizationScore : Option ℚ

/-- Candidate skill row returned by the nearest-neighbour lookup, with the
steps of its active version. -/
structure CandidateSkill where
  embedding : List ℝ
  distance : Option ℝ
  steps : List Json
  parameters : List Json
  preconditions : List Json
  successCriteria : List Json
  examples : List Json
  generalization_score : Option ℚ

/-- What the learner ends up writing: nothing, a fresh skill row, or a new
version merged onto the candidate; each write carries the stored
generalisation score. A skipped outcome performs no insert and no merge,
and leaves the run row unlinked. -/
inductive LearnOutcome where
  | skipped
  | inserted (score : ℚ)
  | merged (score : ℚ)

/-- Score the learner starts from: the one supplied by the model when it is
a number, else the estimate. -/
def provided_or_estimated_score (g : GeneralizedData) : ℚ :=
  match g.generalizationScore with
  | some q => q
  | none => estimate_generalization_score g.normalized g.parameters

/-- The clamped generalisation score of line 1339. -/
def clamped_generalization_score (g : GeneralizedData) : ℚ :=
  max 0 (min 1 (provided_or_estimated_score g))

/-- JSON image of one step under SkillStep.model_dump(). -/
def stepToJson (s : SkillStep) : Json :=
  Json.obj [("title", Json.str s.title), ("instructions", Json.str s.instructions),
    ("notes", match s.notes with | some n => Json.str n | none => Json.null)]

/-- Merge score of the candidate against the new skill, lines 1386 to 1404:
similarity from the retained embeddings or the distance, clamped; then the
maximum of the weighted mix, the boosted similarity and the step
similarity, with the step similarity alone when no similarity is
computable. -/
noncomputable def merge_score_value (cand : CandidateSkill) (emb : List ℝ) (stepSim : ℚ) : ℝ :=
  let similarity : Option ℝ :=
    if !cand.embedding.isEmpty && !emb.isEmpty then some (cosine_similarity cand.embedding emb)
    else
      match cand.distance with
      | some d => some (1 - d * d / 2)
      | none => none
  match similarity with
  | none => (stepSim : ℝ)
  | some s =>
    let sim := clamp01 s
    max (max (sim * 0.7 + (stepSim : ℝ) * 0.3) (min 1 (sim + SKILLS_MERGE_SIMILARITY_EPS)))
      ((stepSim : ℝ))

/-- Embedding of the decision spine of _record_skill_background: bail when
decomposition or generalisation failed, gate on the clamped score, bail
when embedding failed or came back empty, then merge onto a sufficiently
similar candidate or insert a fresh skill. -/
noncomputable def record_skill_outcome (decomposed : Bool) (generalized : Option GeneralizedData)
    (embedding : Option (List ℝ)) (candidate : Option CandidateSkill) : LearnOutcome :=
  if !decomposed then LearnOutcome.skipped
  else
    match generalized with
    | none => LearnOutcome.skipped
    | some g =>
      let score := clamped_generalization_score g
      if score < SKILLS_GENERALIZATION_THRESHOLD then LearnOutcome.skipped
      else
        match embedding with
        | none => LearnOutcome.skipped
        | some emb =>
          if emb.isEmpty then LearnOutcome.skipped
          else
            match candidate with
            | none => LearnOutcome.inserted score
            | some cand =>
              let stepSim := step_similarity (g.normalized.steps.map stepToJson) cand.steps
              if merge_score_value cand emb stepSim ≥ SKILLS_MERGE_SIMILARITY_THRESHOLD then
                LearnOutcome.merged (merged_generalization_score cand.generalization_score score)
              else LearnOutcome.inserted score

/-! The /feedback endpoint, from skills-service skill_feedback. The run,
skill and version lookups and the repair call enter as arguments. -/

/-- Feedback rating values. -/
inductive Rating where
  | positive
  | neutral
  | negative
  deriving DecidableEq

/-- Skill references stored on the run row. -/
structure SkillRunRow where
  skillId : Option String
  skillVersionId : Option String

/-- Python truthiness of an optional string. -/
def optTruthy (o : Option String) : Bool :=
  match o with
  | some s => !(s == "")
  | none => false

/-- HTTP-level result of the endpoint: the 404 raised when the run is
missing, or a 200 body with the updated flag and the new version id. -/
inductive FeedbackHttp where
  | notFound
  | ok (updated : Bool) (newVersionId : Option String)
  deriving DecidableEq

/-- Result of a feedback request together with the writes it performed:
whether the rating and clamped text were persisted on the run, and whether
a repaired version was saved and promoted. -/
structure FeedbackOutcome where
  persistedFeedback : Option (Rating × Option String)
  savedNewVersion : Bool
  result : FeedbackHttp

/-- The clamped feedback text of line 1726: clamp to 2000 characters, an
empty result stored as null. -/
def feedback_text_of (feedback : Option String) : Option String :=
  let t := clamp_text (feedback.getD "") 2000
  if t = "" then none else some t

/-- Embedding of skills-service skill_feedback: 404 before any write when
the run is missing; otherwise persist the rating and clamped text, stop
with updated false unless the rating is negative and the run is linked,
and downgrade every later repair failure to updated false as well. -/
def skill_feedback (run : Option SkillRunRow) (rating : Rating) (feedback : Option String)
    (skillRow : Bool) (versionRow : Bool) (fix : Option (List SkillStep))
    (newVersionId : String) : FeedbackOutcome :=
  match run with
  | none => ⟨none, false, FeedbackHttp.notFound⟩
  | some row =>
    let persisted := some (rating, feedback_text_of feedback)
    if rating ≠ Rating.negative ∨ ¬ optTruthy row.skillId ∨ ¬ optTruthy row.skillVersionId then
      ⟨persisted, false, FeedbackHttp.ok false none⟩
    else if !skillRow then ⟨persisted, false, FeedbackHttp.ok false none⟩
    else if !versionRow then ⟨persisted, false, FeedbackHttp.ok false none⟩
    else
      match fix with
      | none => ⟨persisted, false, FeedbackHttp.ok false none⟩
      | some _ => ⟨persisted, true, FeedbackHttp.ok true (some newVersionId)⟩

/-! Concrete instances used by witnesses and counterexamples. -/

/-- Parser stub that rejects every string, the concrete image of a
json.loads call that always raises. -/
def loadsNone : String → Option Json := fun _ => none

/-- Parser stub accepting exactly the JSON array text used below. -/
def loadsArr : String → Option Json :=
  fun s => if s = "[1]" then some (Json.arr [Json.num 1]) else none

/-- An edge-creation call, scenario S1. -/
def edgeCreateCall : ToolCall :=
  ⟨some "c1", some "edge", ArgsRaw.dict [("action", Json.str "create")]⟩

/-- A node-creation call, scenario S1. -/
def nodeCreateCall : ToolCall :=
  ⟨some "c2", some "node", ArgsRaw.dict [("action", Json.str "create")]⟩

/-- A call whose argument text is not valid JSON. -/
def malformedArgsCall : ToolCall :=
  ⟨some "id1", some "node", ArgsRaw.text "not json"⟩

/-- A call whose argument text parses to a JSON array. -/
def arrayArgsCall : ToolCall :=
  ⟨some "id1", some "node", ArgsRaw.text "[1]"⟩

/-- Schema whose top-level type is the string value string. -/
def typedStringSchema : Json := Json.obj [("type", Json.str "string")]

/-- Response whose parsed assistant message is the empty string while
output_text is present. -/
def emptyMessageResponse : ModelResponse :=
  ⟨ParsedOutput.assistant "", some "hi", none⟩

/-- Definition whose entrypoint holds one brace-delimited placeholder. -/
def placeholderDefn : SkillDefinition :=
  ⟨"Lookup", "d", "Find {query}", []⟩

/-- Parameter dict with the given name. -/
def mkParam (n : String) : Json :=
  Json.obj [("name", Json.str n), ("description", Json.str "d")]

/-- Twelve incoming parameters, enough to fill the parameter cap. -/
def twelveParams : List Json :=
  [mkParam "p0", mkParam "p1", mkParam "p2", mkParam "p3", mkParam "p4", mkParam "p5",
   mkParam "p6", mkParam "p7", mkParam "p8", mkParam "p9", mkParam "pa", mkParam "pb"]

/-- One existing parameter whose name is absent from twelveParams. -/
def extraParam : List Json := [mkParam "q0"]

/-- Generalised data carrying a model-supplied score of nine tenths. -/
def learnInputHigh : GeneralizedData :=
  ⟨⟨"Skill", "d", "e", []⟩, [], [], [], [], some (9 / 10)⟩

/-! Theorems. Shared helper lemmas come first, then one theorem per claim
with its witness or counterexample. -/

/-- Prioritisation permutes the calls: sorting the enumerated list and
dropping the indices yields a rearrangement of the input. -/
theorem prioritize_tool_calls_perm (loads : String → Option Json) (calls : List ToolCall) :
    (prioritize_tool_calls loads calls).Perm calls := by
  unfold prioritize_tool_calls
  have h := (List.perm_insertionSort (priorityLe loads) calls.enum).map Prod.snd
  simpa [List.enum_map_snd] using h

/-- Calls carrying a call id and a name are invoked with their parsed
arguments, wherever prioritisation placed them. -/
theorem mem_round_tool_invocations (loads : String → Option Json) {calls : List ToolCall}
    {call : ToolCall} (hmem : call ∈ calls) {cid n : String} (hcid : call.call_id = some cid)
    (hname : call.name = some n) (hc : cid ≠ "") (hn : n ≠ "") :
    (n, parse_tool_args loads call.arguments) ∈ round_tool_invocations loads calls := by
  unfold round_tool_invocations
  rw [List.mem_filterMap]
  refine ⟨call, ((prioritize_tool_calls_perm loads calls).mem_iff).mpr hmem, ?_⟩
  rw [hcid, hname]
  simp [hc, hn]

/-- C9: a function-call argument string that is not valid JSON, as well as
an absent or empty argument, parses to the empty object, and the call is
still invoked with that object: malformed arguments never drop a call from
the resolution round. -/
theorem c9_malformed_args_tolerated (loads : String → Option Json) (calls : List ToolCall) :
    (∀ s, loads s = none → parse_tool_args loads (ArgsRaw.text s) = Json.obj []) ∧
      parse_tool_args loads ArgsRaw.missing = Json.obj [] ∧
      parse_tool_args loads (ArgsRaw.text "") = Json.obj [] ∧
      (∀ call ∈ calls, ∀ cid n : String, call.call_id = some cid → call.name = some n →
        cid ≠ "" → n ≠ "" →
        (n, parse_tool_args loads call.arguments) ∈ round_tool_invocations loads calls) := by
  refine ⟨?_, rfl, rfl, ?_⟩
  · intro s hs
    by_cases hempty : s = ""
    · subst hempty; rfl
    · simp only [parse_tool_args, argsTruthy]
      rw [if_neg (by simpa using hempty)]
      rw [hs]
  · intro call hmem cid n hcid hname hc hn
    exact mem_round_tool_invocations loads hmem hcid hname hc hn

/-- Witness for C9 at a concrete malformed call: the call named node with
unparseable arguments is still invoked, with the empty object. -/
theorem c9_malformed_args_tolerated_witness :
    ("node", Json.obj []) ∈ round_tool_invocations loadsNone [malformedArgsCall] := by
  have h := c9_malformed_args_tolerated loadsNone [malformedArgsCall]
  have hmem := h.2.2.2 malformedArgsCall (by simp) "id1" "node" rfl rfl (by decide) (by decide)
  have hargs : parse_tool_args loadsNone malformedArgsCall.arguments = Json.obj [] :=
    h.1 "not json" rfl
  rwa [hargs] at hmem

/-- C10: a function-call argument string that is valid JSON with a
non-object top-level value is returned unchanged by the argument parser,
and that value is what reaches call_tool. -/
theorem c10_nonobject_args_passed_through (loads : String → Option Json) (calls : List ToolCall) :
    (∀ s j, s ≠ "" → loads s = some j → parse_tool_args loads (ArgsRaw.text s) = j) ∧
      (∀ call ∈ calls, ∀ cid n : String, call.call_id = some cid → call.name = some n →
        cid ≠ "" → n ≠ "" → ∀ s j, call.arguments = ArgsRaw.text s → s ≠ "" → loads s = some j →
        (n, j) ∈ round_tool_invocations loads calls) := by
  have hparse : ∀ s j, s ≠ "" → loads s = some j →
      parse_tool_args loads (ArgsRaw.text s) = j := by
    intro s j hs hj
    simp only [parse_tool_args, argsTruthy]
    rw [if_neg (by simpa using hs)]
    rw [hj]
  refine ⟨hparse, ?_⟩
  intro call hmem cid n hcid hname hc hn s j hargs hs hj
  have h := mem_round_tool_invocations loads hmem hcid hname hc hn
  rwa [hargs, hparse s j hs hj] at h

/-- Witness for C10 at a concrete call whose arguments parse to a JSON
array: the array itself is handed to call_tool. -/
theorem c10_nonobject_args_passed_through_witness :
    ("node", Json.arr [Json.num 1]) ∈ round_tool_invocations loadsArr [arrayArgsCall] := by
  exact (c10_nonobject_args_passed_through loadsArr [arrayArgsCall]).2 arrayArgsCall (by simp)
    "id1" "node" rfl rfl (by decide) (by decide) "[1]" (Json.arr [Json.num 1]) rfl (by decide) rfl

/-- C8: a feedback request for an unknown run yields 404 with no state
change; a known run always gets its rating and clamped feedback text
persisted; a non-negative rating or an unlinked run stops with updated
false and a null new version id; and every later repair failure also
yields updated false rather than an error status. -/
theorem c8_feedback_policy (run : Option SkillRunRow) (rating : Rating)
    (feedback : Option String) (skillRow versionRow : Bool) (fix : Option (List SkillStep))
    (vid : String) :
    (run = none →
      skill_feedback run rating feedback skillRow versionRow fix vid =
        ⟨none, false, FeedbackHttp.notFound⟩) ∧
    (∀ row, run = some row →
      (skill_feedback run rating feedback skillRow versionRow fix vid).persistedFeedback =
          some (rating, feedback_text_of feedback) ∧
        (skill_feedback run rating feedback skillRow versionRow fix vid).result ≠
          FeedbackHttp.notFound ∧
        ((rating ≠ Rating.negative ∨ ¬ optTruthy row.skillId ∨ ¬ optTruthy row.skillVersionId) →
          skill_feedback run rating feedback skillRow versionRow fix vid =
            ⟨some (rating, feedback_text_of feedback), false, FeedbackHttp.ok false none⟩) ∧
        ((skillRow = false ∨ versionRow = false ∨ fix = none) →
          (skill_feedback run rating feedback skillRow versionRow fix vid).result =
            FeedbackHttp.ok false none) ∧
        ((skill_feedback run rating feedback skillRow versionRow fix vid).result =
            FeedbackHttp.ok true (some vid) ∨
          (skill_feedback run rating feedback skillRow versionRow fix vid).result =
            FeedbackHttp.ok false none)) := by
  constructor
  · intro h; subst h; rfl
  · intro row h
    subst h
    simp only [skill_feedback]
    by_cases hstop : rating ≠ Rating.negative ∨ ¬ optTruthy row.skillId ∨
      ¬ optTruthy row.skillVersionId
    · rw [if_pos hstop]
      refine ⟨rfl, by simp, fun _ => rfl, fun _ => rfl, Or.inr rfl⟩
    · rw [if_neg hstop]
      cases skillRow with
      | false =>
        refine ⟨rfl, by simp, fun hc => absurd hc hstop, fun _ => rfl, Or.inr rfl⟩
      | true =>
        cases versionRow with
        | false =>
          refine ⟨rfl, by simp, fun hc => absurd hc hstop, fun _ => rfl, Or.inr rfl⟩
        | true =>
          cases fix with
          | none =>
            refine ⟨rfl, by simp, fun hc => absurd hc hstop, fun _ => rfl, Or.inr rfl⟩
          | some steps =>
            refine ⟨rfl, by simp, fun hc => absurd hc hstop, ?_, Or.inl rfl⟩
            rintro (h | h | h) <;> simp_all

/-- Witness for C8: a feedback request whose run lookup is empty is
answered with 404 and performs no write. -/
theorem c8_feedback_policy_witness :
    skill_feedback none Rating.negative (some "bad") true true none "v2" =
      ⟨none, false, FeedbackHttp.notFound⟩ :=
  (c8_feedback_policy none Rating.negative (some "bad") true true none "v2").1 rfl

/-- C2: the claimed placeholder arithmetic. The compiled pattern requires a
literal backslash before each brace, so the plain placeholder in the
entrypoint counts zero and the code score stays at the base 0.35 where the
claimed formula yields 0.40. -/
theorem c2_placeholder_score_divergence :
    count_placeholders "Find {query}" = 0 ∧
      spec_count_placeholders "Find {query}" = 1 ∧
      estimate_generalization_score placeholderDefn [] = 7 / 20 ∧
      spec_generalization_score placeholderDefn [] = 2 / 5 := by
  have h0 : count_placeholders "Find {query}" = 0 := by decide
  have h1 : spec_count_placeholders "Find {query}" = 1 := by decide
  have h2 : estimate_generalization_score placeholderDefn [] = 7 / 20 := by
    simp only [estimate_generalization_score, placeholderDefn, List.map_nil, List.sum_nil,
      Nat.add_zero, h0, List.length_nil]
    norm_num
  have h3 : spec_generalization_score placeholderDefn [] = 2 / 5 := by
    simp only [spec_generalization_score, placeholderDefn, List.map_nil, List.sum_nil,
      Nat.add_zero, h1, List.length_nil]
    norm_num
  exact ⟨h0, h1, h2, h3⟩

/-- C3 (amended): the final-text extraction is total and returns, trimmed,
the first present of the parsed message (an assistant payload or a
dict-shaped one, an empty message counting as absent), the output_text
attribute, and the first output_text content block. -/
theorem c3_final_text_extraction (r : ModelResponse) :
    run_agent_final_output r = amended_final_output r := by
  rcases r with ⟨parsed, otext, out⟩
  cases parsed with
  | absent => cases otext <;> cases out <;> rfl
  | otherValue => cases otext <;> cases out <;> rfl
  | assistant m =>
    by_cases hm : m = ""
    · subst hm; cases otext <;> cases out <;> rfl
    · simp only [run_agent_final_output, amended_final_output, if_neg hm]
  | dict msg =>
    cases msg with
    | none => cases otext <;> cases out <;> rfl
    | some m =>
      by_cases hm : m = ""
      · subst hm; cases otext <;> cases out <;> rfl
      · simp only [run_agent_final_output, amended_final_output, if_neg hm]

/-- Counterexample to C3 as stated: when the parsed assistant message is
present but empty and output_text is present, the code returns the
output_text while the claimed first-present rule returns the empty
message. -/
theorem c3_first_present_counterexample :
    run_agent_final_output emptyMessageResponse = "hi" ∧
      claimed_final_output_spec emptyMessageResponse = "" ∧
      run_agent_final_output emptyMessageResponse ≠
        claimed_final_output_spec emptyMessageResponse := by
  refine ⟨rfl, rfl, ?_⟩
  intro h
  rw [show run_agent_final_output emptyMessageResponse = "hi" from rfl,
    show claimed_final_output_spec emptyMessageResponse = "" from rfl] at h
  exact absurd h (by decide)

/-- C4: a retrieved nearest skill passes the gate exactly when its clamped
match similarity reaches the 0.75 threshold, and when no similarity is
computable the request is a miss exactly when the distance is absent or
above the 0.25 distance threshold. -/
theorem c4_retrieval_gate (stored query : List ℝ) (distance : Option ℝ) :
    (∀ s, match_similarity stored query distance = some s →
      (run_skill_match_decision stored query distance = MatchDecision.hit ↔
        MATCH_SIMILARITY_THRESHOLD ≤ clamp01 s)) ∧
    (match_similarity stored query distance = none →
      (run_skill_match_decision stored query distance = MatchDecision.miss ↔
        (distance = none ∨ ∃ d, distance = some d ∧ MATCH_THRESHOLD < d))) := by
  constructor
  · intro s hs
    simp only [run_skill_match_decision, hs]
    by_cases h : clamp01 s < MATCH_SIMILARITY_THRESHOLD
    · rw [if_pos h]
      constructor
      · intro hh; exact absurd hh (by simp)
      · intro hle; exact absurd h (not_lt.mpr hle)
    · rw [if_neg h]
      exact ⟨fun _ => not_lt.mp h, fun _ => rfl⟩
  · intro hnone
    cases distance with
    | none =>
      simp only [run_skill_match_decision, hnone]
      simp
    | some d =>
      simp only [run_skill_match_decision, hnone]
      by_cases hd : MATCH_THRESHOLD < d
      · rw [if_pos hd]
        exact ⟨fun _ => Or.inr ⟨d, ⟨rfl, hd⟩⟩, fun _ => rfl⟩
      · rw [if_neg hd]
        constructor
        · intro hh; exact absurd hh (by simp)
        · rintro (h | ⟨d2, hd2, hlt⟩)
          · exact absurd h (by simp)
          · rw [Option.some.injEq] at hd2
            exact absurd (hd2 ▸ hlt) hd

/-- Witness for C4: with no retained stored embedding and a returned
distance of zero the derived similarity is one, so the decision is a hit. -/
theorem c4_retrieval_gate_witness :
    run_skill_match_decision [] [] (some 0) = MatchDecision.hit := by
  have hsim : match_similarity [] [] (some 0) = some 1 := by
    simp only [match_similarity, List.isEmpty_nil, Bool.not_true, Bool.false_and,
      Bool.false_eq_true, if_false]
    norm_num
  refine ((c4_retrieval_gate [] [] (some 0)).1 1 hsim).mpr ?_
  have hc : clamp01 (1 : ℝ) = 1 := by
    simp only [clamp01]
    norm_num [max_def, min_def]
  rw [hc]
  unfold MATCH_SIMILARITY_THRESHOLD
  norm_num

/-- C5: the learner skips whenever the clamped generalisation score is
below the 0.75 threshold, before any insert or merge, and every score it
does write, whether on the insert path or as the merged maximum, is at
least the threshold. -/
theorem c5_generalization_gate (decomposed : Bool) (generalized : Option GeneralizedData)
    (embedding : Option (List ℝ)) (candidate : Option CandidateSkill) :
    (∀ g, generalized = some g →
      clamped_generalization_score g < SKILLS_GENERALIZATION_THRESHOLD →
      record_skill_outcome decomposed generalized embedding candidate = LearnOutcome.skipped) ∧
    (∀ s, (record_skill_outcome decomposed generalized embedding candidate =
          LearnOutcome.inserted s ∨
        record_skill_outcome decomposed generalized embedding candidate =
          LearnOutcome.merged s) →
      SKILLS_GENERALIZATION_THRESHOLD ≤ s) := by
  cases decomposed with
  | false =>
    refine ⟨fun g hg hlt => rfl, fun s h => ?_⟩
    rcases h with h | h <;> simp [record_skill_outcome] at h
  | true =>
    cases generalized with
    | none =>
      constructor
      · intro g hg hlt2
        cases hg
      · intro s h
        rcases h with h | h <;> simp [record_skill_outcome] at h
    | some g =>
      by_cases hlt : clamped_generalization_score g < SKILLS_GENERALIZATION_THRESHOLD
      · refine ⟨fun g2 hg2 hlt2 => ?_, fun s h => ?_⟩
        · simp only [record_skill_outcome, Bool.not_true, Bool.false_eq_true, if_false]
          rw [if_pos hlt]
        · have houtcome : record_skill_outcome true (some g) embedding candidate =
              LearnOutcome.skipped := by
            simp only [record_skill_outcome, Bool.not_true, Bool.false_eq_true, if_false]
            rw [if_pos hlt]
          rcases h with h | h <;> rw [houtcome] at h <;> exact absurd h (by simp)
      · have hge : SKILLS_GENERALIZATION_THRESHOLD ≤ clamped_generalization_score g :=
          not_lt.mp hlt
        refine ⟨fun g2 hg2 hlt2 => ?_, fun s h => ?_⟩
        · rw [Option.some.injEq] at hg2
          exact absurd (hg2 ▸ hlt2) hlt
        · cases embedding with
          | none =>
            simp only [record_skill_outcome, Bool.not_true, Bool.false_eq_true, if_false] at h
            rw [if_neg hlt] at h
            rcases h with h | h <;> exact absurd h (by simp)
          | some emb =>
            cases candidate with
            | none =>
              simp only [record_skill_outcome, Bool.not_true, Bool.false_eq_true, if_false] at h
              rw [if_neg hlt] at h
              by_cases hemp : emb.isEmpty
              · rw [if_pos hemp] at h
                rcases h with h | h <;> exact absurd h (by simp)
              · rw [if_neg hemp] at h
                rcases h with h | h
                · rw [LearnOutcome.inserted.injEq] at h
                  exact h ▸ hge
                · exact absurd h (by simp)
            | some cand =>
              simp only [record_skill_outcome, Bool.not_true, Bool.false_eq_true, if_false] at h
              rw [if_neg hlt] at h
              by_cases hemp : emb.isEmpty
              · rw [if_pos hemp] at h
                rcases h with h | h <;> exact absurd h (by simp)
              · rw [if_neg hemp] at h
                by_cases hms : merge_score_value cand emb
                    (step_similarity (g.normalized.steps.map stepToJson) cand.steps) ≥
                      SKILLS_MERGE_SIMILARITY_THRESHOLD
                · rw [if_pos hms] at h
                  rcases h with h | h
                  · exact absurd h (by simp)
                  · rw [LearnOutcome.merged.injEq] at h
                    rw [← h]
                    refine le_trans hge ?_
                    cases cand.generalization_score with
                    | none => exact le_refl _
                    | some e => exact le_max_right e _
                · rw [if_neg hms] at h
                  rcases h with h | h
                  · rw [LearnOutcome.inserted.injEq] at h
                    exact h ▸ hge
                  · exact absurd h (by simp)

/-- Witness for C5: a generalised skill whose supplied score is nine tenths
passes the gate and is inserted with that score, which meets the
threshold. -/
theorem c5_generalization_gate_witness :
    SKILLS_GENERALIZATION_THRESHOLD ≤ 9 / 10 := by
  have hscore : clamped_generalization_score learnInputHigh = 9 / 10 := by
    simp only [clamped_generalization_score, provided_or_estimated_score, learnInputHigh]
    norm_num [max_def, min_def]
  have houtcome : record_skill_outcome true (some learnInputHigh) (some [1]) none =
      LearnOutcome.inserted (9 / 10) := by
    simp only [record_skill_outcome, Bool.not_true, Bool.false_eq_true, if_false, hscore]
    rw [if_neg (by norm_num [SKILLS_GENERALIZATION_THRESHOLD])]
    rfl
  exact (c5_generalization_gate true (some learnInputHigh) (some [1]) none).2 (9 / 10)
    (Or.inl houtcome)

/-! Association-list lemmas for the schema normaliser. -/

theorem jsonGet_jsonSet_self (f : List (String × Json)) (k : String) (v : Json) :
    jsonGet (jsonSet f k v) k = some v := by
  induction f with
  | nil => simp [jsonSet, jsonGet]
  | cons kv rest ih =>
    obtain ⟨k0, v0⟩ := kv
    simp only [jsonSet]
    by_cases h : k0 = k
    · rw [if_pos h]
      simp [jsonGet, h]
    · rw [if_neg h]
      simp [jsonGet, h, ih]

theorem jsonGet_jsonSet_ne (f : List (String × Json)) (k k' : String) (v : Json)
    (h : k' ≠ k) : jsonGet (jsonSet f k v) k' = jsonGet f k' := by
  induction f with
  | nil => simp [jsonSet, jsonGet, Ne.symm h]
  | cons kv rest ih =>
    obtain ⟨k0, v0⟩ := kv
    simp only [jsonSet]
    by_cases h0 : k0 = k
    · rw [if_pos h0]
      subst h0
      simp [jsonGet, Ne.symm h]
    · rw [if_neg h0]
      simp [jsonGet, ih]

theorem jsonSet_eq_of_get (f : List (String × Json)) (k : String) (v : Json)
    (h : jsonGet f k = some v) : jsonSet f k v = f := by
  induction f with
  | nil => simp [jsonGet] at h
  | cons kv rest ih =>
    obtain ⟨k0, v0⟩ := kv
    simp only [jsonGet] at h
    simp only [jsonSet]
    by_cases h0 : k0 = k
    · rw [if_pos h0] at h ⊢
      obtain rfl := Option.some.inj h
      rfl
    · rw [if_neg h0] at h ⊢
      rw [ih h]

theorem propsIsDict_iff (f : List (String × Json)) :
    propsIsDict f = true ↔ ∃ ps, jsonGet f "properties" = some (Json.obj ps) := by
  unfold propsIsDict
  rcases hp : jsonGet f "properties" with _ | j
  · simp
  · cases j <;> simp

theorem jsonGet_ensurePropsDict_other (f : List (String × Json)) (k : String)
    (h : k ≠ "properties") : jsonGet (ensurePropsDict f) k = jsonGet f k := by
  rcases hp : jsonGet f "properties" with _ | j
  · simp only [ensurePropsDict, hp]
    exact jsonGet_jsonSet_ne f "properties" k (Json.obj []) h
  · cases j <;> simp only [ensurePropsDict, hp] <;>
      first
        | rfl
        | exact jsonGet_jsonSet_ne f "properties" k (Json.obj []) h

theorem propsIsDict_ensurePropsDict (f : List (String × Json)) :
    propsIsDict (ensurePropsDict f) = true := by
  rcases hp : jsonGet f "properties" with _ | j
  · simp only [ensurePropsDict, hp]
    rw [propsIsDict_iff]
    exact ⟨[], jsonGet_jsonSet_self f "properties" (Json.obj [])⟩
  · cases j <;> simp only [ensurePropsDict, hp] <;>
      rw [propsIsDict_iff] <;>
      first
        | exact ⟨_, hp⟩
        | exact ⟨[], jsonGet_jsonSet_self f "properties" (Json.obj [])⟩

theorem ensurePropsDict_get (f : List (String × Json)) :
    ∃ ps, jsonGet (ensurePropsDict f) "properties" = some (Json.obj ps) :=
  (propsIsDict_iff _).mp (propsIsDict_ensurePropsDict f)

theorem ensurePropsDict_of_propsIsDict (f : List (String × Json))
    (h : propsIsDict f = true) : ensurePropsDict f = f := by
  obtain ⟨ps, hp⟩ := (propsIsDict_iff f).mp h
  simp only [ensurePropsDict, hp]

theorem typeIsObject_implies_hasKey (f : List (String × Json))
    (h : typeIsObject f = true) : hasTypeCarryingKey f = true := by
  unfold typeIsObject at h
  unfold hasTypeCarryingKey
  rcases hg : jsonGet f "type" with _ | j
  · rw [hg] at h
    simp at h
  · simp

/-- The fields built by the object-typed property branch keep their type,
gain a properties mapping and carry additionalProperties false. -/
theorem objBranch_fields (f1 : List (String × Json)) (ht : typeIsObject f1 = true) :
    typeIsObject (jsonSet (ensurePropsDict f1) "additionalProperties" (Json.bool false)) = true ∧
      propsIsDict (jsonSet (ensurePropsDict f1) "additionalProperties" (Json.bool false)) = true ∧
      apIsFalse (jsonSet (ensurePropsDict f1) "additionalProperties" (Json.bool false)) = true := by
  have htype :
      jsonGet (jsonSet (ensurePropsDict f1) "additionalProperties" (Json.bool false)) "type" =
        jsonGet f1 "type" := by
    rw [jsonGet_jsonSet_ne _ _ _ _ (by decide)]
    exact jsonGet_ensurePropsDict_other f1 "type" (by decide)
  refine ⟨?_, ?_, ?_⟩
  · unfold typeIsObject at ht ⊢
    rw [htype]
    exact ht
  · rw [propsIsDict_iff]
    obtain ⟨ps, hp⟩ := ensurePropsDict_get f1
    exact ⟨ps, by rw [jsonGet_jsonSet_ne _ _ _ _ (by decide)]; exact hp⟩
  · unfold apIsFalse
    rw [jsonGet_jsonSet_self]

theorem normalizeProp_closed (p : Json) : propClosed (normalizeProp p) = true := by
  cases p with
  | obj fields =>
    simp only [normalizeProp]
    by_cases hk : hasTypeCarryingKey fields
    · rw [if_pos hk]
      by_cases ht : typeIsObject fields
      · rw [if_pos ht]
        obtain ⟨h1, h2, h3⟩ := objBranch_fields fields ht
        simp [propClosed, typeIsObject_implies_hasKey _ h1, h1, h2, h3]
      · rw [if_neg ht]
        simp [propClosed, hk, ht]
    · rw [if_neg hk]
      have ht : typeIsObject (jsonSet fields "type" (Json.str "object")) = true := by
        unfold typeIsObject
        rw [jsonGet_jsonSet_self]
        decide
      rw [if_pos ht]
      obtain ⟨h1, h2, h3⟩ := objBranch_fields _ ht
      simp [propClosed, typeIsObject_implies_hasKey _ h1, h1, h2, h3]
  | null => rfl
  | bool b => rfl
  | num q => rfl
  | str s => rfl
  | arr items => rfl

theorem normalizeProp_idem (p : Json) : normalizeProp (normalizeProp p) = normalizeProp p := by
  have closedStep : ∀ f1 : List (String × Json), typeIsObject f1 = true →
      normalizeProp (Json.obj (jsonSet (ensurePropsDict f1) "additionalProperties"
          (Json.bool false))) =
        Json.obj (jsonSet (ensurePropsDict f1) "additionalProperties" (Json.bool false)) := by
    intro f1 ht
    obtain ⟨h1, h2, h3⟩ := objBranch_fields f1 ht
    simp only [normalizeProp]
    rw [if_pos (typeIsObject_implies_hasKey _ h1), if_pos h1]
    have hget : jsonGet (jsonSet (ensurePropsDict f1) "additionalProperties" (Json.bool false))
        "additionalProperties" = some (Json.bool false) := jsonGet_jsonSet_self _ _ _
    rw [ensurePropsDict_of_propsIsDict _ h2, jsonSet_eq_of_get _ _ _ hget]
  cases p with
  | obj fields =>
    by_cases hk : hasTypeCarryingKey fields
    · by_cases ht : typeIsObject fields
      · have hq : normalizeProp (Json.obj fields) =
            Json.obj (jsonSet (ensurePropsDict fields) "additionalProperties"
              (Json.bool false)) := by
          simp only [normalizeProp]
          rw [if_pos hk, if_pos ht]
        rw [hq]
        exact closedStep fields ht
      · have hq : normalizeProp (Json.obj fields) = Json.obj fields := by
          simp only [normalizeProp]
          rw [if_pos hk, if_neg ht]
        rw [hq]
        exact hq
    · have ht : typeIsObject (jsonSet fields "type" (Json.str "object")) = true := by
        unfold typeIsObject
        rw [jsonGet_jsonSet_self]
        decide
      have hq : normalizeProp (Json.obj fields) =
          Json.obj (jsonSet (ensurePropsDict (jsonSet fields "type" (Json.str "object")))
            "additionalProperties" (Json.bool false)) := by
        simp only [normalizeProp]
        rw [if_neg hk, if_pos ht]
      rw [hq]
      exact closedStep _ ht
  | null => rfl
  | bool b => rfl
  | num q => rfl
  | str s => rfl
  | arr items => rfl

/-- Structure of every normaliser output: fields1 is the input dict with
its type defaulted, the properties mapping is ensured, every property is
normalised, and additionalProperties is forced to false; moreover the
stored type entry is present and never null. -/
theorem normalize_struct (x : Json) :
    ∃ f1 ps,
      normalize_tool_schema x =
        Json.obj (jsonSet
          (jsonSet (ensurePropsDict f1) "properties"
            (Json.obj (ps.map (fun kv => (kv.1, normalizeProp kv.2)))))
          "additionalProperties" (Json.bool false)) ∧
      jsonGet (ensurePropsDict f1) "properties" = some (Json.obj ps) ∧
      (∃ v, jsonGet f1 "type" = some v ∧ v ≠ Json.null) ∧
      jsonGet f1 "type" =
        (match x with
         | Json.obj f =>
           (match jsonGet f "type" with
            | none => some (Json.str "object")
            | some Json.null => some (Json.str "object")
            | some w => some w)
         | _ => some (Json.str "object")) := by
  cases x with
  | obj f =>
    rcases ht : jsonGet f "type" with _ | v
    · obtain ⟨ps, hps⟩ := ensurePropsDict_get (jsonSet f "type" (Json.str "object"))
      refine ⟨jsonSet f "type" (Json.str "object"), ps, ?_, hps,
        ⟨Json.str "object", jsonGet_jsonSet_self _ _ _, fun hcon => Json.noConfusion hcon⟩, ?_⟩
      · simp only [normalize_tool_schema, ht, hps]
      · rw [jsonGet_jsonSet_self]
        show _ =
          (match jsonGet f "type" with
           | none => some (Json.str "object")
           | some Json.null => some (Json.str "object")
           | some w => some w)
        rw [ht]
    · cases v with
      | null =>
        obtain ⟨ps, hps⟩ := ensurePropsDict_get (jsonSet f "type" (Json.str "object"))
        refine ⟨jsonSet f "type" (Json.str "object"), ps, ?_, hps,
          ⟨Json.str "object", jsonGet_jsonSet_self _ _ _, fun hcon => Json.noConfusion hcon⟩, ?_⟩
        · simp only [normalize_tool_schema, ht, hps]
        · rw [jsonGet_jsonSet_self]
          show _ =
            (match jsonGet f "type" with
             | none => some (Json.str "object")
             | some Json.null => some (Json.str "object")
             | some w => some w)
          rw [ht]
      | bool b =>
        obtain ⟨ps, hps⟩ := ensurePropsDict_get f
        refine ⟨f, ps, ?_, hps, ⟨_, ht, fun hcon => Json.noConfusion hcon⟩, ?_⟩
        · simp only [normalize_tool_schema, ht, hps]
        · show _ =
            (match jsonGet f "type" with
             | none => some (Json.str "object")
             | some Json.null => some (Json.str "object")
             | some w => some w)
          rw [ht]
      | num q =>
        obtain ⟨ps, hps⟩ := ensurePropsDict_get f
        refine ⟨f, ps, ?_, hps, ⟨_, ht, fun hcon => Json.noConfusion hcon⟩, ?_⟩
        · simp only [normalize_tool_schema, ht, hps]
        · show _ =
            (match jsonGet f "type" with
             | none => some (Json.str "object")
             | some Json.null => some (Json.str "object")
             | some w => some w)
          rw [ht]
      | str s =>
        obtain ⟨ps, hps⟩ := ensurePropsDict_get f
        refine ⟨f, ps, ?_, hps, ⟨_, ht, fun hcon => Json.noConfusion hcon⟩, ?_⟩
        · simp only [normalize_tool_schema, ht, hps]
        · show _ =
            (match jsonGet f "type" with
             | none => some (Json.str "object")
             | some Json.null => some (Json.str "object")
             | some w => some w)
          rw [ht]
      | arr items =>
        obtain ⟨ps, hps⟩ := ensurePropsDict_get f
        refine ⟨f, ps, ?_, hps, ⟨_, ht, fun hcon => Json.noConfusion hcon⟩, ?_⟩
        · simp only [normalize_tool_schema, ht, hps]
        · show _ =
            (match jsonGet f "type" with
             | none => some (Json.str "object")
             | some Json.null => some (Json.str "object")
             | some w => some w)
          rw [ht]
      | obj g =>
        obtain ⟨ps, hps⟩ := ensurePropsDict_get f
        refine ⟨f, ps, ?_, hps, ⟨_, ht, fun hcon => Json.noConfusion hcon⟩, ?_⟩
        · simp only [normalize_tool_schema, ht, hps]
        · show _ =
            (match jsonGet f "type" with
             | none => some (Json.str "object")
             | some Json.null => some (Json.str "object")
             | some w => some w)
          rw [ht]
  | null =>
    exact ⟨[("type", Json.str "object")], [], rfl, rfl,
      ⟨Json.str "object", rfl, fun hcon => Json.noConfusion hcon⟩, rfl⟩
  | bool b =>
    exact ⟨[("type", Json.str "object")], [], rfl, rfl,
      ⟨Json.str "object", rfl, fun hcon => Json.noConfusion hcon⟩, rfl⟩
  | num q =>
    exact ⟨[("type", Json.str "object")], [], rfl, rfl,
      ⟨Json.str "object", rfl, fun hcon => Json.noConfusion hcon⟩, rfl⟩
  | str s =>
    exact ⟨[("type", Json.str "object")], [], rfl, rfl,
      ⟨Json.str "object", rfl, fun hcon => Json.noConfusion hcon⟩, rfl⟩
  | arr items =>
    exact ⟨[("type", Json.str "object")], [], rfl, rfl,
      ⟨Json.str "object", rfl, fun hcon => Json.noConfusion hcon⟩, rfl⟩

/-- C1 (amended): the tool-schema normaliser is idempotent, its output
always satisfies additionalProperties false, a properties mapping and a
type-carrying key on every property with object-typed properties closed,
and the outermost type is forced to object exactly when the input carries
no top-level type or a null one; an existing non-null type is preserved. -/
theorem c1_schema_normalizer (x : Json) :
    normalize_tool_schema (normalize_tool_schema x) = normalize_tool_schema x ∧
      schemaClosed (normalize_tool_schema x) = true ∧
      schemaType (normalize_tool_schema x) =
        (match x with
         | Json.obj f =>
           (match jsonGet f "type" with
            | none => some (Json.str "object")
            | some Json.null => some (Json.str "object")
            | some w => some w)
         | _ => some (Json.str "object")) := by
  obtain ⟨f1, ps, hN, hps, ⟨v, hv, hvne⟩, htype⟩ := normalize_struct x
  set mapped := ps.map (fun kv => (kv.1, normalizeProp kv.2)) with hmapped
  set f3 := jsonSet (ensurePropsDict f1) "properties" (Json.obj mapped) with hf3
  set F := jsonSet f3 "additionalProperties" (Json.bool false) with hF
  have hFap : jsonGet F "additionalProperties" = some (Json.bool false) := by
    rw [hF]
    exact jsonGet_jsonSet_self _ _ _
  have hFprops : jsonGet F "properties" = some (Json.obj mapped) := by
    rw [hF, jsonGet_jsonSet_ne _ _ _ _ (by decide), hf3, jsonGet_jsonSet_self]
  have hFtype : jsonGet F "type" = some v := by
    rw [hF, jsonGet_jsonSet_ne _ _ _ _ (by decide), hf3, jsonGet_jsonSet_ne _ _ _ _ (by decide),
      jsonGet_ensurePropsDict_other _ _ (by decide), hv]
  have hens : ensurePropsDict F = F :=
    ensurePropsDict_of_propsIsDict _ ((propsIsDict_iff _).mpr ⟨mapped, hFprops⟩)
  have hmapidem : mapped.map (fun kv => (kv.1, normalizeProp kv.2)) = mapped := by
    rw [hmapped, List.map_map]
    have hfun : ((fun kv : String × Json => (kv.1, normalizeProp kv.2)) ∘
        (fun kv : String × Json => (kv.1, normalizeProp kv.2))) =
        (fun kv : String × Json => (kv.1, normalizeProp kv.2)) := by
      funext kv
      simp [Function.comp, normalizeProp_idem]
    rw [hfun]
  have hsetprops : jsonSet F "properties" (Json.obj mapped) = F :=
    jsonSet_eq_of_get _ _ _ hFprops
  have hsetap : jsonSet F "additionalProperties" (Json.bool false) = F :=
    jsonSet_eq_of_get _ _ _ hFap
  refine ⟨?_, ?_, ?_⟩
  · rw [hN]
    cases v with
    | null => exact absurd rfl hvne
    | bool b => simp only [normalize_tool_schema, hFtype, hens, hFprops, hmapidem, hsetprops, hsetap]
    | num q => simp only [normalize_tool_schema, hFtype, hens, hFprops, hmapidem, hsetprops, hsetap]
    | str s => simp only [normalize_tool_schema, hFtype, hens, hFprops, hmapidem, hsetprops, hsetap]
    | arr items =>
      simp only [normalize_tool_schema, hFtype, hens, hFprops, hmapidem, hsetprops, hsetap]
    | obj g => simp only [normalize_tool_schema, hFtype, hens, hFprops, hmapidem, hsetprops, hsetap]
  · rw [hN]
    have hap : apIsFalse F = true := by
      unfold apIsFalse
      rw [hFap]
    simp only [schemaClosed, hap, hFprops, Bool.true_and]
    rw [hmapped, List.all_map]
    simp [Function.comp, normalizeProp_closed]
  · rw [hN]
    simp only [schemaType]
    rw [hFtype, ← hv, htype]

/-- Counterexample to C1 as stated: a schema whose top-level type is the
string value string keeps it; the normaliser does not force the outermost
type to object. -/
theorem c1_type_not_forced_counterexample :
    schemaType (normalize_tool_schema typedStringSchema) = some (Json.str "string") ∧
      schemaType (normalize_tool_schema typedStringSchema) ≠ some (Json.str "object") := by
  refine ⟨rfl, ?_⟩
  intro h
  rw [show schemaType (normalize_tool_schema typedStringSchema) = some (Json.str "string")
    from rfl] at h
  simp only [Option.some.injEq, Json.str.injEq] at h
  exact absurd h (by decide)

/-! Lemmas on the shared keyed-merge loop. -/

theorem mergeByKeyAux_acc_mem (keyOf : Json → Option (String × Json)) (cap : ℕ) :
    ∀ (items : List Json) (seen : List String) (acc : List (String × Json))
      (kv : String × Json), kv ∈ acc → kv ∈ mergeByKeyAux keyOf cap items seen acc := by
  intro items
  induction items with
  | nil =>
    intro seen acc kv h
    simpa [mergeByKeyAux] using h
  | cons p rest ih =>
    intro seen acc kv h
    rcases hk : keyOf p with _ | ⟨k, v⟩
    · simp only [mergeByKeyAux, hk]
      exact ih seen acc kv h
    · simp only [mergeByKeyAux, hk]
      by_cases hseen : k ∈ seen
      · rw [if_pos hseen]
        exact ih seen acc kv h
      · rw [if_neg hseen]
        by_cases hcap : acc.length + 1 ≥ cap
        · rw [if_pos hcap]
          exact List.mem_append_left _ h
        · rw [if_neg hcap]
          exact ih _ _ kv (List.mem_append_left _ h)

theorem mergeByKeyAux_src (keyOf : Json → Option (String × Json)) (cap : ℕ) :
    ∀ (items : List Json) (seen : List String) (acc : List (String × Json))
      (kv : String × Json), kv ∈ mergeByKeyAux keyOf cap items seen acc →
      kv ∈ acc ∨ ∃ p ∈ items, keyOf p = some kv := by
  intro items
  induction items with
  | nil =>
    intro seen acc kv h
    exact Or.inl (by simpa [mergeByKeyAux] using h)
  | cons p rest ih =>
    intro seen acc kv h
    rcases hk : keyOf p with _ | ⟨k, v⟩
    · simp only [mergeByKeyAux, hk] at h
      rcases ih _ _ _ h with h2 | ⟨q, hq, hkq⟩
      · exact Or.inl h2
      · exact Or.inr ⟨q, List.mem_cons_of_mem _ hq, hkq⟩
    · simp only [mergeByKeyAux, hk] at h
      by_cases hseen : k ∈ seen
      · rw [if_pos hseen] at h
        rcases ih _ _ _ h with h2 | ⟨q, hq, hkq⟩
        · exact Or.inl h2
        · exact Or.inr ⟨q, List.mem_cons_of_mem _ hq, hkq⟩
      · rw [if_neg hseen] at h
        by_cases hcap : acc.length + 1 ≥ cap
        · rw [if_pos hcap] at h
          rcases List.mem_append.mp h with h2 | h2
          · exact Or.inl h2
          · obtain rfl := List.mem_singleton.mp h2
            exact Or.inr ⟨p, List.mem_cons_self _ _, hk⟩
        · rw [if_neg hcap] at h
          rcases ih _ _ _ h with h2 | ⟨q, hq, hkq⟩
          · rcases List.mem_append.mp h2 with h3 | h3
            · exact Or.inl h3
            · obtain rfl := List.mem_singleton.mp h3
              exact Or.inr ⟨p, List.mem_cons_self _ _, hk⟩
          · exact Or.inr ⟨q, List.mem_cons_of_mem _ hq, hkq⟩

theorem mergeByKeyAux_preserve (keyOf : Json → Option (String × Json)) (cap : ℕ) :
    ∀ (items : List Json) (seen : List String) (acc : List (String × Json)),
      (mergeByKeyAux keyOf cap items seen acc).length < cap →
      (∀ m ∈ seen, ∃ w, (m, w) ∈ acc) →
      ∀ n ∈ keysOf keyOf items, ∃ w, (n, w) ∈ mergeByKeyAux keyOf cap items seen acc := by
  intro items
  induction items with
  | nil =>
    intro seen acc hlen hinv n hn
    simp [keysOf] at hn
  | cons p rest ih =>
    intro seen acc hlen hinv n hn
    rcases hk : keyOf p with _ | ⟨k, v⟩
    · simp only [mergeByKeyAux, hk] at hlen ⊢
      have hn2 : n ∈ keysOf keyOf rest := by
        simpa [keysOf, List.filterMap_cons, hk] using hn
      exact ih seen acc hlen hinv n hn2
    · have hnsplit : n = k ∨ n ∈ keysOf keyOf rest := by
        simpa [keysOf, List.filterMap_cons, hk] using hn
      simp only [mergeByKeyAux, hk] at hlen ⊢
      by_cases hseen : k ∈ seen
      · rw [if_pos hseen] at hlen ⊢
        rcases hnsplit with rfl | hn2
        · obtain ⟨w, hw⟩ := hinv n hseen
          exact ⟨w, mergeByKeyAux_acc_mem keyOf cap rest seen acc _ hw⟩
        · exact ih seen acc hlen hinv n hn2
      · rw [if_neg hseen] at hlen ⊢
        by_cases hcap : acc.length + 1 ≥ cap
        · rw [if_pos hcap] at hlen
          exfalso
          rw [List.length_append, List.length_singleton] at hlen
          omega
        · rw [if_neg hcap] at hlen ⊢
          have hinv2 : ∀ m ∈ k :: seen, ∃ w, (m, w) ∈ acc ++ [(k, v)] := by
            intro m hm
            rcases List.mem_cons.mp hm with rfl | hm2
            · exact ⟨v, List.mem_append_right _ (List.mem_singleton.mpr rfl)⟩
            · obtain ⟨w, hw⟩ := hinv m hm2
              exact ⟨w, List.mem_append_left _ hw⟩
          rcases hnsplit with rfl | hn2
          · exact ⟨v, mergeByKeyAux_acc_mem keyOf cap rest (n :: seen) _ _
              (List.mem_append_right _ (List.mem_singleton.mpr rfl))⟩
          · exact ih _ _ hlen hinv2 n hn2

/-- C6 (amended): a merge never reduces the candidate generalisation score
(the stored score is the maximum of the two), every merged element is
drawn from the incoming or the existing side, and whenever the merged list
stays below its cap every existing dedupe key is still represented in the
merged list; at the cap, elements can be dropped, incoming first. -/
theorem c6_merge_safety (existingScore : Option ℚ) (s : ℚ)
    (exP incP exPre incPre exSucc incSucc exEx incEx : List Json) :
    (∀ e, existingScore = some e → e ≤ merged_generalization_score existingScore s) ∧
    s ≤ merged_generalization_score existingScore s ∧
    (∀ kv ∈ mergeByKey paramKey SKILLS_MAX_PARAMETERS (incP ++ exP),
      ∃ p ∈ incP ++ exP, paramKey p = some kv) ∧
    ((merge_parameters exP incP).length < SKILLS_MAX_PARAMETERS →
      ∀ n ∈ keysOf paramKey exP,
        ∃ w, (n, w) ∈ mergeByKey paramKey SKILLS_MAX_PARAMETERS (incP ++ exP)) ∧
    (∀ kv ∈ mergeByKey (stringKey 260) SKILLS_MAX_PRECONDITIONS (incPre ++ exPre),
      ∃ p ∈ incPre ++ exPre, stringKey 260 p = some kv) ∧
    ((merge_string_lists exPre incPre SKILLS_MAX_PRECONDITIONS 260).length <
        SKILLS_MAX_PRECONDITIONS →
      ∀ n ∈ keysOf (stringKey 260) exPre,
        ∃ w, (n, w) ∈ mergeByKey (stringKey 260) SKILLS_MAX_PRECONDITIONS (incPre ++ exPre)) ∧
    (∀ kv ∈ mergeByKey (stringKey 260) SKILLS_MAX_SUCCESS_CRITERIA (incSucc ++ exSucc),
      ∃ p ∈ incSucc ++ exSucc, stringKey 260 p = some kv) ∧
    ((merge_string_lists exSucc incSucc SKILLS_MAX_SUCCESS_CRITERIA 260).length <
        SKILLS_MAX_SUCCESS_CRITERIA →
      ∀ n ∈ keysOf (stringKey 260) exSucc,
        ∃ w, (n, w) ∈ mergeByKey (stringKey 260) SKILLS_MAX_SUCCESS_CRITERIA
          (incSucc ++ exSucc)) ∧
    (∀ kv ∈ mergeByKey exampleKey SKILLS_MAX_EXAMPLES (incEx ++ exEx),
      ∃ p ∈ incEx ++ exEx, exampleKey p = some kv) ∧
    ((merge_examples exEx incEx).length < SKILLS_MAX_EXAMPLES →
      ∀ n ∈ keysOf exampleKey exEx,
        ∃ w, (n, w) ∈ mergeByKey exampleKey SKILLS_MAX_EXAMPLES (incEx ++ exEx)) := by
  have hsrc : ∀ (keyOf : Json → Option (String × Json)) (cap : ℕ) (items : List Json),
      ∀ kv ∈ mergeByKey keyOf cap items, ∃ p ∈ items, keyOf p = some kv := by
    intro keyOf cap items kv h
    rcases mergeByKeyAux_src keyOf cap items [] [] kv h with h2 | h2
    · simp at h2
    · exact h2
  have hpres : ∀ (keyOf : Json → Option (String × Json)) (cap : ℕ) (ex inc : List Json),
      ((mergeByKey keyOf cap (inc ++ ex)).map Prod.snd).length < cap →
      ∀ n ∈ keysOf keyOf ex, ∃ w, (n, w) ∈ mergeByKey keyOf cap (inc ++ ex) := by
    intro keyOf cap ex inc hlen n hn
    rw [List.length_map] at hlen
    refine mergeByKeyAux_preserve keyOf cap (inc ++ ex) [] [] hlen (by simp) n ?_
    simp only [keysOf, List.filterMap_append]
    exact List.mem_append_right _ hn
  refine ⟨?_, ?_, hsrc _ _ _, hpres _ _ _ _, hsrc _ _ _, hpres _ _ _ _, hsrc _ _ _,
    hpres _ _ _ _, hsrc _ _ _, hpres _ _ _ _⟩
  · intro e he
    subst he
    exact le_max_left e s
  · cases existingScore with
    | none => exact le_refl s
    | some e => exact le_max_right e s

/-- Counterexample to C6 as stated: twelve incoming parameters fill the
cap, so the existing parameter named q0 is dropped from the merged list. -/
theorem c6_cap_drop_counterexample :
    "q0" ∈ keysOf paramKey extraParam ∧
      (merge_parameters extraParam twelveParams).length = SKILLS_MAX_PARAMETERS ∧
      "q0" ∉ (mergeByKey paramKey SKILLS_MAX_PARAMETERS
        (twelveParams ++ extraParam)).map Prod.fst := by
  refine ⟨by decide, by decide, by decide⟩

/-- Witness for C6 at concrete inputs: an existing score of one half never
exceeds the merged score, and below the cap an existing key survives the
merge. -/
theorem c6_merge_safety_witness :
    (1 / 2 : ℚ) ≤ merged_generalization_score (some (1 / 2)) (4 / 5) ∧
      ∃ w, ("a", w) ∈ mergeByKey paramKey SKILLS_MAX_PARAMETERS ([] ++ [mkParam "a"]) := by
  constructor
  · exact (c6_merge_safety (some (1 / 2)) (4 / 5) [] [] [] [] [] [] [] []).1 (1 / 2) rfl
  · obtain ⟨h1, h2, h3, h4, hrest⟩ := c6_merge_safety none 0 [mkParam "a"] [] [] [] [] [] [] []
    exact h4 (by decide) "a" (by decide)

/-! Lemmas for the prioritisation claim. -/

/-- Two sorted lists that are permutations of each other and whose keys are
pairwise distinct under an antisymmetric key order are equal. -/
theorem sorted_perm_eq_of_nodup_keys {α β : Type} (f : α → β) (le : β → β → Prop)
    (hanti : ∀ x y, le x y → le y x → x = y) :
    ∀ l₁ l₂ : List α, l₁.Perm l₂ →
      l₁.Pairwise (fun a b => le (f a) (f b)) → l₂.Pairwise (fun a b => le (f a) (f b)) →
      (l₁.map f).Nodup → l₁ = l₂ := by
  intro l₁
  induction l₁ with
  | nil =>
    intro l₂ hperm _ _ _
    exact (hperm.symm.eq_nil).symm
  | cons a t ih =>
    intro l₂ hperm hs₁ hs₂ hnd
    cases l₂ with
    | nil => exact absurd hperm.eq_nil (by simp)
    | cons b t₂ =>
      have hab : a = b := by
        by_contra hne
        have haIn : a ∈ t₂ := by
          rcases List.mem_cons.mp (hperm.mem_iff.mp (List.mem_cons_self a t)) with h | h
          · exact absurd h hne
          · exact h
        have hbIn : b ∈ t := by
          rcases List.mem_cons.mp (hperm.symm.mem_iff.mp (List.mem_cons_self b t₂)) with h | h
          · exact absurd h.symm hne
          · exact h
        have h1 : le (f a) (f b) := (List.pairwise_cons.mp hs₁).1 b hbIn
        have h2 : le (f b) (f a) := (List.pairwise_cons.mp hs₂).1 a haIn
        have hfab : f a = f b := hanti _ _ h1 h2
        have hnotin : f a ∉ t.map f := (List.nodup_cons.mp (by simpa using hnd)).1
        refine hnotin ?_
        rw [hfab]
        exact List.mem_map_of_mem f hbIn
      subst hab
      have hpt : t.Perm t₂ := hperm.cons_inv
      have htail := ih t₂ hpt (List.pairwise_cons.mp hs₁).2 (List.pairwise_cons.mp hs₂).2
        (List.nodup_cons.mp (by simpa using hnd)).2
      rw [htail]

/-- Filtering an enumeration on a property of the element and dropping the
indices is filtering the list. -/
theorem enumFrom_filter_map_snd {α : Type} (p : α → Bool) :
    ∀ (l : List α) (n : ℕ),
      ((List.enumFrom n l).filter (fun x => p x.2)).map Prod.snd = l.filter p := by
  intro l
  induction l with
  | nil => intro n; rfl
  | cons a t ih =>
    intro n
    simp only [List.enumFrom_cons, List.filter_cons]
    by_cases hp : p a
    · simp [hp, ih]
    · simp [hp, ih]

/-- Every call priority is zero or ten. -/
theorem tool_call_priority_cases (loads : String → Option Json) (c : ToolCall) :
    tool_call_priority loads c = 0 ∨ tool_call_priority loads c = 10 := by
  simp only [tool_call_priority]
  split
  · exact Or.inr rfl
  · exact Or.inl rfl

/-- C7: prioritisation is the stable two-class arrangement: the weight-zero
calls in input order, then the weight-ten edge-creation calls in input
order; in scenario S1 the edge-create call defers behind the node-create
call, whose priorities are ten and zero. -/
theorem c7_prioritize_stable_sort (loads : String → Option Json) (calls : List ToolCall) :
    prioritize_tool_calls loads calls =
      calls.filter (fun c => tool_call_priority loads c == 0) ++
        calls.filter (fun c => !(tool_call_priority loads c == 0)) ∧
      tool_call_priority loadsNone edgeCreateCall = 10 ∧
      tool_call_priority loadsNone nodeCreateCall = 0 ∧
      prioritize_tool_calls loadsNone [edgeCreateCall, nodeCreateCall] =
        [nodeCreateCall, edgeCreateCall] := by
  refine ⟨?_, rfl, rfl, rfl⟩
  have hanti : ∀ x y : ℕ × ℕ,
      (x.1 < y.1 ∨ (x.1 = y.1 ∧ x.2 ≤ y.2)) → (y.1 < x.1 ∨ (y.1 = x.1 ∧ y.2 ≤ x.2)) →
      x = y := by
    rintro ⟨x1, x2⟩ ⟨y1, y2⟩ h1 h2
    simp only [Prod.mk.injEq]
    omega
  have hperm1 : (List.insertionSort (priorityLe loads) calls.enum).Perm calls.enum :=
    List.perm_insertionSort _ _
  have hpermW :
      (calls.enum.filter (fun x => tool_call_priority loads x.2 == 0) ++
        calls.enum.filter (fun x => !(tool_call_priority loads x.2 == 0))).Perm calls.enum :=
    List.filter_append_perm _ _
  have hidx : calls.enum.Pairwise (fun a b => a.1 < b.1) := by
    have h := List.pairwise_lt_range calls.length
    rw [← List.enum_map_fst] at h
    exact List.pairwise_map.mp h
  have hsorted1 :
      (List.insertionSort (priorityLe loads) calls.enum).Pairwise (priorityLe loads) :=
    List.sorted_insertionSort _ _
  have hsortedW :
      (calls.enum.filter (fun x => tool_call_priority loads x.2 == 0) ++
        calls.enum.filter (fun x => !(tool_call_priority loads x.2 == 0))).Pairwise
        (priorityLe loads) := by
    rw [List.pairwise_append]
    refine ⟨?_, ?_, ?_⟩
    · refine (List.Pairwise.sublist (List.filter_sublist _) hidx).imp_of_mem ?_
      intro a b ha hb hab
      have hpa := (List.mem_filter.mp ha).2
      have hpb := (List.mem_filter.mp hb).2
      rw [beq_iff_eq] at hpa hpb
      exact Or.inr ⟨by rw [hpa, hpb], le_of_lt hab⟩
    · refine (List.Pairwise.sublist (List.filter_sublist _) hidx).imp_of_mem ?_
      intro a b ha hb hab
      have hpa := (List.mem_filter.mp ha).2
      have hpb := (List.mem_filter.mp hb).2
      rw [Bool.not_eq_eq_eq_not, Bool.not_true, beq_eq_false_iff_ne] at hpa hpb
      have h10a : tool_call_priority loads a.2 = 10 :=
        (tool_call_priority_cases loads a.2).resolve_left hpa
      have h10b : tool_call_priority loads b.2 = 10 :=
        (tool_call_priority_cases loads b.2).resolve_left hpb
      exact Or.inr ⟨by rw [h10a, h10b], le_of_lt hab⟩
    · intro a ha b hb
      have hpa := (List.mem_filter.mp ha).2
      have hpb := (List.mem_filter.mp hb).2
      rw [beq_iff_eq] at hpa
      rw [Bool.not_eq_eq_eq_not, Bool.not_true, beq_eq_false_iff_ne] at hpb
      have h10b : tool_call_priority loads b.2 = 10 :=
        (tool_call_priority_cases loads b.2).resolve_left hpb
      exact Or.inl (by rw [hpa, h10b]; exact Nat.zero_lt_succ _)
  have hnd0 : (calls.enum.map (fun p : ℕ × ToolCall =>
      ((tool_call_priority loads p.2, p.1) : ℕ × ℕ))).Nodup := by
    refine List.pairwise_map.mpr (hidx.imp ?_)
    intro a b hab heq
    rw [Prod.mk.injEq] at heq
    omega
  have hnd : ((List.insertionSort (priorityLe loads) calls.enum).map
      (fun p : ℕ × ToolCall => ((tool_call_priority loads p.2, p.1) : ℕ × ℕ))).Nodup :=
    ((hperm1.map _).nodup_iff).mpr hnd0
  have heq := sorted_perm_eq_of_nodup_keys
    (fun p : ℕ × ToolCall => ((tool_call_priority loads p.2, p.1) : ℕ × ℕ))
    (fun x y => x.1 < y.1 ∨ (x.1 = y.1 ∧ x.2 ≤ y.2)) hanti
    (List.insertionSort (priorityLe loads) calls.enum)
    (calls.enum.filter (fun x => tool_call_priority loads x.2 == 0) ++
      calls.enum.filter (fun x => !(tool_call_priority loads x.2 == 0)))
    (hperm1.trans hpermW.symm) hsorted1 hsortedW hnd
  unfold prioritize_tool_calls
  rw [heq, List.map_append]
  have hfil := enumFrom_filter_map_snd (fun c => tool_call_priority loads c == 0) calls 0
  have hfil2 := enumFrom_filter_map_snd
    (fun c => !(tool_call_priority loads c == 0)) calls 0
  rw [show calls.enum = List.enumFrom 0 calls from rfl]
  rw [hfil, hfil2]

end SpecProof
